import Mathlib

/-!
A verification development for the `myprofiler` sampling profiler
(`myprofiler.go`).  The Go source is shallowly embedded: each regular
expression of the normalizer table is embedded as an executable scanner on
`List Char` that reproduces the leftmost, non-overlapping replace-all
semantics of the corresponding Go pattern; the summarizers, the ranking
step and one iteration of the sampling loop are embedded as pure functions,
with slice mutation made explicit in return values and the output sinks
modelled as success predicates on write indices.
-/

/-! ## Character classes (Go regexp ASCII classes) -/

/-- Go `\w` class `[0-9A-Za-z_]`, used by the `\b` word-boundary assertion. -/
def isWordChar (c : Char) : Bool := c.isAlphanum || c = '_'

/-- Go `\s` class `[\t\n\f\r ]`. -/
def isGoSpace (c : Char) : Bool :=
  c = ' ' || c = '\t' || c = '\n' || c = '\x0c' || c = '\r'

/-- Go `[0-9A-Fa-f]` as used in the hexadecimal pattern. -/
def isHexChar (c : Char) : Bool :=
  c.isDigit || ('a' ≤ c && c ≤ 'f') || ('A' ≤ c && c ≤ 'F')

/-- `true` when the first character of `l` is a word character (the `\b`
assertion after a literal fails exactly in that case). -/
def headWord (l : List Char) : Bool :=
  match l with
  | [] => false
  | c :: _ => isWordChar c

/-! ## Rule 1: `regexp(" +") -> " "` -/

/-- Scanner for the pattern `" +"` with replacement `" "`; the flag records
whether the previous character was a space (i.e. whether we are inside a run
that has already emitted its single replacement space). -/
def collapseSpacesAux (prevSpace : Bool) : List Char → List Char
  | [] => []
  | c :: rest =>
    if c = ' ' then
      if prevSpace then collapseSpacesAux true rest
      else ' ' :: collapseSpacesAux true rest
    else c :: collapseSpacesAux false rest

/-- Rule 1 of `normalizePatterns`: collapse every run of spaces to one space. -/
def collapseSpaces (l : List Char) : List Char := collapseSpacesAux false l

/-! ## Rule 2: `regexp("[+\-]?\b\d+\b") -> "N"` -/

/-- Split a leading run of decimal digits from the rest. -/
def spanDigits : List Char → List Char × List Char
  | [] => ([], [])
  | c :: rest =>
    if c.isDigit then
      let p := spanDigits rest
      (c :: p.1, p.2)
    else ([], c :: rest)

/-- Fuelled scanner for `[+\-]?\b\d+\b -> N`.  `prevW` records whether the
character just before the current position is a word character (for the
leading `\b`); scanning always resumes right after a match, as Go's
`ReplaceAllString` does.  The fuel is initialised to the input length and
every recursive call strictly shrinks the list, so the fuel never runs out. -/
def replaceIntLitsF : Nat → Bool → List Char → List Char
  | 0, _, l => l
  | _ + 1, _, [] => []
  | fuel + 1, prevW, c :: rest =>
    if c = '+' || c = '-' then
      -- the optional sign: a `\b` always holds between a sign and a digit
      match spanDigits rest with
      | ([], _) => c :: replaceIntLitsF fuel false rest
      | (_ :: _, rest2) =>
        if headWord rest2 then c :: replaceIntLitsF fuel false rest
        else 'N' :: replaceIntLitsF fuel true rest2
    else if c.isDigit && !prevW then
      match spanDigits rest with
      | (_, rest2) =>
        if headWord rest2 then c :: replaceIntLitsF fuel true rest
        else 'N' :: replaceIntLitsF fuel true rest2
    else c :: replaceIntLitsF fuel (isWordChar c) rest

/-- Rule 2 of `normalizePatterns`: word-bounded, optionally signed integer
literals become `N`. -/
def replaceIntLits (l : List Char) : List Char := replaceIntLitsF l.length false l

/-! ## Rule 3: `regexp("\b0x[0-9A-Fa-f]+\b") -> "0xN"` -/

/-- Split a leading run of hexadecimal digits from the rest. -/
def spanHex : List Char → List Char × List Char
  | [] => ([], [])
  | c :: rest =>
    if isHexChar c then
      let p := spanHex rest
      (c :: p.1, p.2)
    else ([], c :: rest)

/-- Fuelled scanner for `\b0x[0-9A-Fa-f]+\b -> 0xN` (same conventions as
`replaceIntLitsF`). -/
def replaceHexLitsF : Nat → Bool → List Char → List Char
  | 0, _, l => l
  | _ + 1, _, [] => []
  | fuel + 1, prevW, c :: rest =>
    if c = '0' && !prevW then
      match rest with
      | x :: rest2 =>
        if x = 'x' then
          match spanHex rest2 with
          | ([], _) => c :: replaceHexLitsF fuel true rest
          | (_ :: _, rest3) =>
            if headWord rest3 then c :: replaceHexLitsF fuel true rest
            else '0' :: 'x' :: 'N' :: replaceHexLitsF fuel true rest3
        else c :: replaceHexLitsF fuel true rest
      | [] => [c]
    else c :: replaceHexLitsF fuel (isWordChar c) rest

/-- Rule 3 of `normalizePatterns`: word-bounded hexadecimal literals become
`0xN`. -/
def replaceHexLits (l : List Char) : List Char := replaceHexLitsF l.length false l

/-! ## Rules 4 and 5: `regexp("(\\')") -> ""` and `regexp("(\\\")") -> ""` -/

/-- Scanner for the two-character sequence backslash-`esc`, removed by rules 4
and 5; leftmost and non-overlapping exactly as Go's `ReplaceAllString`. -/
def removeEscaped (esc : Char) : List Char → List Char
  | [] => []
  | c :: rest =>
    if c = '\\' then
      match rest with
      | d :: rest2 =>
        if d = esc then removeEscaped esc rest2
        else c :: removeEscaped esc (d :: rest2)
      | [] => [c]
    else c :: removeEscaped esc rest

/-! ## Rules 6 and 7: `regexp("'[^']+'") -> "S"` and `regexp("\"[^\"]+\"") -> "S"` -/

/-- Scanner for `qc[^qc]+qc -> S`.  The second argument is `some acc` while a
candidate literal opened by `qc` is pending with (reversed) content `acc`; a
closing `qc` after a non-empty content emits `S`, an immediately following
`qc` (empty content, which `[^qc]+` cannot match) emits the first quote and
restarts the candidate at the second, and an unclosed quote at the end of the
input is emitted verbatim. -/
def replaceQuotedAux (qc : Char) : Option (List Char) → List Char → List Char
  | none, [] => []
  | some acc, [] => qc :: acc.reverse
  | none, c :: rest =>
    if c = qc then replaceQuotedAux qc (some []) rest
    else c :: replaceQuotedAux qc none rest
  | some acc, c :: rest =>
    if c = qc then
      match acc with
      | [] => qc :: replaceQuotedAux qc (some []) rest
      | _ :: _ => 'S' :: replaceQuotedAux qc none rest
    else replaceQuotedAux qc (some (c :: acc)) rest

/-- Rules 6 and 7 of `normalizePatterns`: a quoted literal with non-empty
content and no embedded quote becomes `S`. -/
def replaceQuoted (qc : Char) (l : List Char) : List Char :=
  replaceQuotedAux qc none l

/-! ## Rule 8: `regexp("(([NS]\s*,\s*){4,})") -> "..."` -/

/-- Drop a leading run of Go whitespace. -/
def dropSpaces : List Char → List Char
  | [] => []
  | c :: rest => if isGoSpace c then dropSpaces rest else c :: rest

/-- Fuelled counter for the repetition `([NS]\s*,\s*){n}` starting at the head
of the list: returns the number of complete repetitions consumed greedily and
the remaining suffix (each repetition consumes at least two characters, so
fuel = input length suffices). -/
def reps8F : Nat → List Char → Nat × List Char
  | 0, l => (0, l)
  | _ + 1, [] => (0, [])
  | fuel + 1, c :: rest =>
    if c = 'N' || c = 'S' then
      match dropSpaces rest with
      | ',' :: rest2 =>
        let p := reps8F fuel (dropSpaces rest2)
        (p.1 + 1, p.2)
      | _ => (0, c :: rest)
    else (0, c :: rest)

/-- Greedy repetition count for rule 8 at the head of `l`. -/
def reps8 (l : List Char) : Nat × List Char := reps8F l.length l

/-- Fuelled scanner for rule 8: at each position, if at least four
`[NS]\s*,\s*` repetitions start there, the whole greedy run is replaced by
`...` and scanning resumes after it; otherwise the scanner advances one
character. -/
def foldListsF : Nat → List Char → List Char
  | 0, l => l
  | _ + 1, [] => []
  | fuel + 1, c :: rest =>
    let p := reps8 (c :: rest)
    if 4 ≤ p.1 then '.' :: '.' :: '.' :: foldListsF fuel p.2
    else c :: foldListsF fuel rest

/-- Rule 8 of `normalizePatterns`: fold runs of four or more `N,`/`S,` pairs
into `...`. -/
def foldLists (l : List Char) : List Char := foldListsF l.length l

/-! ## The normalizer (`normalizePatterns` / `normalizeQuery`) -/

/-- The ordered rule table `normalizePatterns` of `myprofiler.go`, one
executable scanner per regular expression, in source order. -/
def normalizePatterns : List (List Char → List Char) :=
  [ collapseSpaces
  , replaceIntLits
  , replaceHexLits
  , removeEscaped '\''
  , removeEscaped '"'
  , replaceQuoted '\''
  , replaceQuoted '"'
  , foldLists ]

/-- `normalizeQuery`: apply every rule of `normalizePatterns` in order. -/
def normalizeQuery (query : String) : String :=
  ⟨normalizePatterns.foldl (fun s p => p s) query.data⟩

/-! ## `processList` -/

/-- The snapshot query text (`procList` in the source). -/
def procListQuery : String := "SHOW FULL PROCESSLIST"

/-- One row of the `SHOW FULL PROCESSLIST` result as seen by the scan loop:
either the row fails to decode (`rows.Scan` returns an error) or it decodes
with a nullable `info` field.  All other columns are ignored by the core. -/
inductive ScanRow where
  | bad : ScanRow
  | ok (info : Option String) : ScanRow
deriving DecidableEq

/-- The outcome of the snapshot call made by `processList`: the query itself
can fail, `rows.Columns` can fail (the code panics), or a column count and a
list of rows are produced. -/
inductive Snapshot where
  | queryError : Snapshot
  | columnsError : Snapshot
  | ok (cols : Nat) (rs : List ScanRow) : Snapshot
deriving DecidableEq

/-- The row loop of `processList`: decode failures are logged and skipped;
a decoded row contributes its `info` text exactly when it is non-null,
non-empty and distinct from the snapshot query itself. -/
def rowLoop : List ScanRow → List String
  | [] => []
  | .bad :: rest => rowLoop rest
  | .ok info :: rest =>
    match info with
    | some q => if q ≠ "" ∧ q ≠ procListQuery then q :: rowLoop rest else rowLoop rest
    | none => rowLoop rest

/-- Result of `processList`: `fatal` models `panic` / `log.Fatal` (the process
aborts), `queries` is the normal return value. -/
inductive PLResult where
  | fatal : PLResult
  | queries (qs : List String) : PLResult
deriving DecidableEq

/-- `processList`: a failed snapshot query is logged and yields the empty
round; a `Columns` failure panics; a column count other than 8 or 9 is fatal
(`log.Fatal`); otherwise the row loop runs. -/
def processList : Snapshot → PLResult
  | .queryError => .queries []
  | .columnsError => .fatal
  | .ok cols rs => if cols = 8 ∨ cols = 9 then .queries (rowLoop rs) else .fatal

/-! ## `queryCount`, string ordering and the ranking step -/

/-- The `queryCount` pair of the source (`q string; c int64`). -/
structure queryCount where
  q : String
  c : Int
deriving DecidableEq

/-- Bytewise lexicographic strict comparison of statement texts, the order
used by Go's `sort.Strings` (UTF-8 byte order coincides with scalar-value
order). -/
def strLtB : List Char → List Char → Bool
  | [], [] => false
  | [], _ :: _ => true
  | _ :: _, [] => false
  | a :: as, b :: bs =>
    if a.toNat < b.toNat then true
    else if b.toNat < a.toNat then false
    else strLtB as bs

/-- The non-strict order on statement texts induced by `strLtB`. -/
def strLe (a b : String) : Prop := strLtB b.data a.data = false

instance : DecidableRel strLe := fun a b => by unfold strLe; infer_instance

/-- `sort.Strings`: the ascending lexicographic sort of a batch. -/
def sortStrings (l : List String) : List String := List.insertionSort strLe l

/-- The descending-count order of `pairList.Less` (`pl[i].c > pl[j].c`):
an entry precedes another when its count is at least as large. -/
def descBy (a b : queryCount) : Prop := b.c ≤ a.c

instance : DecidableRel descBy := fun a b => by unfold descBy; infer_instance

instance : IsTotal queryCount descBy := ⟨fun a b => le_total b.c a.c⟩

instance : IsTrans queryCount descBy :=
  ⟨fun _ _ _ hab hbc => le_trans hbc hab⟩

/-- The ranking step of `showSummary`: turn the frequency mapping into
`queryCount` pairs, sort by descending count, and keep the first `n`
entries (`if i >= n break`, so a non-positive `n` keeps nothing).  Go map
iteration order is unspecified, so the mapping is taken as a list of
key/count pairs in an arbitrary order. -/
def rank (sum : List (String × Int)) (n : Int) : List queryCount :=
  (List.insertionSort descBy (sum.map fun p => ⟨p.1, p.2⟩)).take n.toNat

/-! ## Output sinks -/

/-- A sink is modelled by which write attempts succeed: `ok i` is the result
of the `i`-th write issued to it. -/
abbrev Sink := Nat → Bool

/-- Sequential report-line writes of `showSummary`: each `Fprintf` is one
write attempt; the first failed write makes `showSummary` return early
(abandoning the rest of the report), which is modelled by returning the
write counter after the failed attempt. -/
def writeLines (ok : Sink) : Nat → List queryCount → Nat
  | w, [] => w
  | w, _ :: rest => if ok w then writeLines ok (w + 1) rest else w + 1

/-- `showSummary`: rank the mapping and write the report lines until done or
until a write fails; returns the sink's new write counter. -/
def showSummary (ok : Sink) (w : Nat) (sum : List (String × Int)) (n : Int) : Nat :=
  writeLines ok w (rank sum n)

/-! ## The two summarizers -/

/-- `sum[q] += c` on a mapping represented as a key/count association list
with at most one entry per key. -/
def addCount : List (String × Int) → String → Int → List (String × Int)
  | [], q, c => [(q, c)]
  | (k, v) :: rest, q, c =>
    if k = q then (k, v + c) :: rest else (k, v) :: addCount rest q c

/-- The cumulative `summarizer` of the source: one lifetime mapping. -/
structure summarizer where
  counts : List (String × Int)
deriving DecidableEq

/-- `summarizer.Update`: `s.counts[q]++` for each statement of the batch; the
batch itself is only read, never written, so the caller's slice is returned
unchanged. -/
def summarizer.Update (s : summarizer) (queries : List String) :
    summarizer × List String :=
  (⟨queries.foldl (fun m q => addCount m q 1) s.counts⟩, queries)

/-- Run-length encoding step of `recentSummarizer.Update`, with the encoded
round kept in reverse (Go appends at the end and bumps the last entry; the
head of the accumulator is that last entry). -/
def rleRev (acc : List queryCount) : List String → List queryCount
  | [] => acc
  | q :: rest =>
    match acc with
    | top :: accr =>
      if top.q = q then rleRev (⟨top.q, top.c + 1⟩ :: accr) rest
      else rleRev (⟨q, 1⟩ :: top :: accr) rest
    | [] => rleRev [⟨q, 1⟩] rest

/-- Run-length encode a (sorted) batch into a Round. -/
def rle (l : List String) : List queryCount := (rleRev [] l).reverse

/-- The windowed `recentSummarizer` of the source. -/
structure recentSummarizer where
  last : Nat
  counts : List (List queryCount)
deriving DecidableEq

/-- `recentSummarizer.Update`: evict the oldest Round when the queue has
reached `last` (`s.counts = s.counts[1:]`), sort the caller's batch in place
(`sort.Strings(queries)`), run-length encode it and append the new Round.
The second component is the content of the caller's slice after the call:
`sort.Strings` has sorted it. -/
def recentSummarizer.Update (s : recentSummarizer) (queries : List String) :
    recentSummarizer × List String :=
  let counts1 := if s.counts.length ≥ s.last then s.counts.drop 1 else s.counts
  let sorted := sortStrings queries
  (⟨s.last, counts1 ++ [rle sorted]⟩, sorted)

/-- `sum[qc.q] += qc.c` over every retained Round: the transient aggregate
rebuilt by `recentSummarizer.Show` on every call. -/
def recentAggregate (counts : List (List queryCount)) : List (String × Int) :=
  counts.foldl (fun m round => round.foldl (fun m qc => addCount m qc.q qc.c) m) []

/-- The strategy-polymorphic summarizer state. -/
inductive Summarizer where
  | cum (s : summarizer) : Summarizer
  | recent (s : recentSummarizer) : Summarizer
deriving DecidableEq

/-- Polymorphic `Update`: dispatch to the variant; the second component is the
caller's batch slice after the call. -/
def Summarizer.update : Summarizer → List String → Summarizer × List String
  | .cum s, qs =>
    let p := s.Update qs
    (.cum p.1, p.2)
  | .recent s, qs =>
    let p := s.Update qs
    (.recent p.1, p.2)

/-- The frequency mapping a `Show` call would rank and print. -/
def Summarizer.aggregate : Summarizer → List (String × Int)
  | .cum s => s.counts
  | .recent s => recentAggregate s.counts

/-- `NewSummarizer`: the windowed variant for a positive retention, the
cumulative variant (with an initialised map) otherwise. -/
def NewSummarizer (last : Int) : Summarizer :=
  if last > 0 then .recent ⟨last.toNat, []⟩ else .cum ⟨[]⟩

/-! ## One iteration of the `profile` loop -/

/-- The configuration fields consumed by `profile` (`interval` only feeds the
sleep and is irrelevant here). -/
structure Config where
  dump : Option Sink
  topN : Int
  last : Int
  delay : Int

/-- The loop-local state of `profile`, plus the write counters of the two
sinks. -/
structure ProfState where
  summ : Summarizer
  cnt : Int
  dumpW : Nat
  outW : Nat
deriving DecidableEq

/-- The raw-dump phase: each statement is written, then a newline, each with
its own error check; the first failed write makes `profile` return
(`none`). -/
def dumpPhase (ok : Sink) (w : Nat) : List String → Option Nat
  | [] => some w
  | _ :: rest =>
    if ok w then
      if ok (w + 1) then dumpPhase ok (w + 2) rest else none
    else none

/-- How one iteration of the `profile` loop ends. -/
inductive IterOutcome where
  | abort : IterOutcome
  | exit : IterOutcome
  | next (st : ProfState) (reported : Bool) : IterOutcome
deriving DecidableEq

/-- One iteration of `profile`: snapshot, optional raw dump (fatal to the
loop on a failed write), in-place normalization, `Update`, and — once the
round counter reaches `delay` — a timestamp header (its write error is
ignored by `fmt.Println`) followed by `Show` on the report sink (whose write
errors only truncate that report). -/
def profileIter (cfg : Config) (out : Sink) (st : ProfState) (snap : Snapshot) :
    IterOutcome :=
  match processList snap with
  | .fatal => .abort
  | .queries qs =>
    let dres : Option Nat :=
      match cfg.dump with
      | none => some st.dumpW
      | some ok => dumpPhase ok st.dumpW qs
    match dres with
    | none => .exit
    | some dw =>
      let nqs := qs.map normalizeQuery
      let p := st.summ.update nqs
      let cnt2 := st.cnt + 1
      if cnt2 ≥ cfg.delay then
        let w1 := st.outW + 1
        let w2 := showSummary out w1 p.1.aggregate cfg.topN
        .next ⟨p.1, 0, dw, w2⟩ true
      else .next ⟨p.1, cnt2, dw, st.outW⟩ false

/-- The state `profile` starts from: `NewSummarizer(cfg.last)`, a zero round
counter and fresh sinks. -/
def initState (last : Int) : ProfState := ⟨NewSummarizer last, 0, 0, 0⟩

/-! ## Specification-side observation functions -/

/-- Occurrence count of a statement in a batch, as an `int64` count. -/
def countOcc : List String → String → Int
  | [], _ => 0
  | q :: rest, s => (if q = s then 1 else 0) + countOcc rest s

/-- Count looked up in a key/count association list; a missing key has the Go
map zero value `0`. -/
def lookupCount : List (String × Int) → String → Int
  | [], _ => 0
  | (k, v) :: rest, s => if k = s then v else lookupCount rest s

/-- Total count one Round contributes for one statement. -/
def roundSum (r : List queryCount) (s : String) : Int :=
  (r.map fun qc => if qc.q = s then qc.c else 0).sum

/-- The row filter of `processList`, per row: a decoded row passes with its
statement text exactly when that text is non-null, non-empty and not the
snapshot query itself. -/
def rowInfoAccepted : ScanRow → Option String
  | .bad => none
  | .ok none => none
  | .ok (some q) => if q ≠ "" ∧ q ≠ procListQuery then some q else none

/-- A well-formed 8-column snapshot whose rows all decode with the given
statement texts. -/
def mkSnap (qs : List String) : Snapshot := .ok 8 (qs.map fun q => .ok (some q))

/-- Fold a sequence of batches through `recentSummarizer.Update`. -/
def runRecentUpdates (s : recentSummarizer) (batches : List (List String)) :
    recentSummarizer :=
  batches.foldl (fun s qs => (s.Update qs).1) s

/-! # Theorems

First the order-theoretic facts about the statement-text comparison, then
helper lemmas about the summarizer data structures, then one theorem per
claim. -/

/-- Characters with equal scalar values are equal. -/
theorem charEqOfToNat {a b : Char} (h : a.toNat = b.toNat) : a = b := by
  apply Char.ext
  apply UInt32.ext
  simpa [Char.toNat, UInt32.toNat] using h

/-- `strLtB` is transitive. -/
theorem strLtB_trans : ∀ a b c : List Char,
    strLtB a b = true → strLtB b c = true → strLtB a c = true := by
  intro a
  induction a with
  | nil =>
    intro b c hab hbc
    cases b with
    | nil => simp [strLtB] at hab
    | cons y bs =>
      cases c with
      | nil => simp [strLtB] at hbc
      | cons z cs => simp [strLtB]
  | cons x as ih =>
    intro b c hab hbc
    cases b with
    | nil => simp [strLtB] at hab
    | cons y bs =>
      cases c with
      | nil => simp [strLtB] at hbc
      | cons z cs =>
        simp only [strLtB] at hab hbc ⊢
        split_ifs at hab hbc ⊢ with h1 h2 h3 h4 h5 h6 <;>
          first
            | rfl
            | omega
            | exact hab
            | exact hbc
            | exact ih bs cs hab hbc

/-- Two texts neither of which is below the other are equal. -/
theorem strLtB_eq_of_not : ∀ a b : List Char,
    strLtB a b = false → strLtB b a = false → a = b := by
  intro a
  induction a with
  | nil =>
    intro b hab _
    cases b with
    | nil => rfl
    | cons y bs => simp [strLtB] at hab
  | cons x as ih =>
    intro b hab hba
    cases b with
    | nil => simp [strLtB] at hba
    | cons y bs =>
      simp only [strLtB] at hab hba
      by_cases h1 : x.toNat < y.toNat
      · simp [h1] at hab
      · by_cases h2 : y.toNat < x.toNat
        · simp [h2] at hba
        · simp [h1, h2] at hab hba
          have hxy : x = y := charEqOfToNat (by omega)
          rw [hxy, ih bs hab hba]

/-- `strLtB` is irreflexive. -/
theorem strLtB_irrefl : ∀ a : List Char, strLtB a a = false := by
  intro a
  induction a with
  | nil => rfl
  | cons x as ih => simpa [strLtB] using ih

/-- Totality of the non-strict statement order. -/
theorem strLe_total : ∀ a b : String, strLe a b ∨ strLe b a := by
  intro a b
  unfold strLe
  cases h : strLtB b.data a.data with
  | false => exact Or.inl rfl
  | true =>
    right
    cases h2 : strLtB a.data b.data with
    | false => rfl
    | true =>
      have h3 := strLtB_trans _ _ _ h h2
      rw [strLtB_irrefl] at h3
      exact absurd h3 (by simp)

/-- Transitivity of the non-strict statement order. -/
theorem strLe_trans : ∀ a b c : String, strLe a b → strLe b c → strLe a c := by
  intro a b c hab hbc
  unfold strLe at hab hbc ⊢
  cases hT : strLtB c.data a.data with
  | false => rfl
  | true =>
    cases hbc2 : strLtB b.data c.data with
    | true =>
      have h := strLtB_trans _ _ _ hbc2 hT
      rw [h] at hab
      exact hab
    | false =>
      have he := strLtB_eq_of_not _ _ hbc2 hbc
      rw [← he] at hT
      rw [hT] at hab
      exact hab

/-! ## Claim C10: `Update` and the caller's batch slice -/

/-- Claim C10: the Windowed summarizer's `Update` mutates its argument — it
sorts the caller's batch slice lexicographically in place, so the slice the
caller holds after `Update` returns is the ascending sorted permutation of
the slice passed in, and differs from the original whenever the batch was
not already sorted; the Cumulative summarizer's `Update` leaves the batch
unchanged. -/
theorem c10_update_batch_mutation (s : recentSummarizer) (m : summarizer)
    (qs : List String) :
    (s.Update qs).2 = sortStrings qs
    ∧ ((s.Update qs).2).Perm qs
    ∧ ((s.Update qs).2).Sorted strLe
    ∧ (¬ qs.Sorted strLe → (s.Update qs).2 ≠ qs)
    ∧ (m.Update qs).2 = qs := by
  haveI : IsTotal String strLe := ⟨strLe_total⟩
  haveI : IsTrans String strLe := ⟨strLe_trans⟩
  have h2 : (s.Update qs).2 = sortStrings qs := rfl
  refine ⟨h2, ?_, ?_, ?_, rfl⟩
  · rw [h2]
    exact List.perm_insertionSort strLe qs
  · rw [h2]
    exact List.sorted_insertionSort strLe qs
  · intro hns heq
    apply hns
    have hsorted := List.sorted_insertionSort strLe qs
    rw [h2] at heq
    unfold sortStrings at heq
    rw [heq] at hsorted
    exact hsorted

/-- Witness for C10 at a concrete unsorted batch. -/
theorem c10_update_batch_mutation_witness :
    ((recentSummarizer.mk 2 []).Update ["b", "a"]).2 ≠ ["b", "a"] :=
  (c10_update_batch_mutation ⟨2, []⟩ ⟨[]⟩ ["b", "a"]).2.2.2.1 (by decide)

/-! ## Claim C4: the ranking step -/

/-- Claim C4: for every frequency mapping, `rank(map, 0)` emits nothing, and
`rank(map, n)` with `n` exceeding the number of entries emits one entry for
every entry of the mapping (a permutation of them), sorted non-ascending by
count. -/
theorem c4_rank_bounds (sum : List (String × Int)) (n : Int) :
    rank sum 0 = []
    ∧ ((sum.length : Int) < n →
        (rank sum n).Perm (sum.map fun p => ⟨p.1, p.2⟩)
        ∧ (rank sum n).Sorted descBy) := by
  constructor
  · simp [rank]
  · intro h
    have hlen : (List.insertionSort descBy (sum.map fun p => ⟨p.1, p.2⟩)).length
        = sum.length := by
      rw [(List.perm_insertionSort descBy _).length_eq, List.length_map]
    have htake : rank sum n
        = List.insertionSort descBy (sum.map fun p => ⟨p.1, p.2⟩) := by
      unfold rank
      apply List.take_of_length_le
      rw [hlen]
      omega
    constructor
    · rw [htake]
      exact List.perm_insertionSort descBy _
    · rw [htake]
      exact List.sorted_insertionSort descBy _

/-- Witness for C4 at a concrete mapping. -/
theorem c4_rank_bounds_witness :
    rank [("a", 3), ("b", 7)] 0 = []
    ∧ (rank [("a", 3), ("b", 7)] 5).Perm
        ([("a", 3), ("b", 7)].map fun p => ⟨p.1, p.2⟩)
    ∧ (rank [("a", 3), ("b", 7)] 5).Sorted descBy :=
  ⟨(c4_rank_bounds [("a", 3), ("b", 7)] 5).1,
   (c4_rank_bounds [("a", 3), ("b", 7)] 5).2 (by decide)⟩

/-! ## Claim C6: the retention queue is bounded -/

/-- One `Update` of the windowed summarizer keeps the retention queue within
its capacity and leaves the capacity itself unchanged. -/
theorem recentUpdate_counts_le (s : recentSummarizer) (qs : List String)
    (h : 0 < s.last) (hlen : s.counts.length ≤ s.last) :
    ((s.Update qs).1).last = s.last
    ∧ ((s.Update qs).1).counts.length ≤ s.last := by
  unfold recentSummarizer.Update
  refine ⟨rfl, ?_⟩
  simp only [List.length_append, List.length_cons, List.length_nil]
  split_ifs with hc
  · rw [List.length_drop]
    omega
  · omega

/-- Claim C6: starting from the empty state of a Windowed summarizer with
capacity `last > 0`, after every sequence of `Update` calls the number of
retained Rounds is at most `last`. -/
theorem c6_window_never_exceeds (last : Nat) (h : 0 < last)
    (batches : List (List String)) :
    (runRecentUpdates ⟨last, []⟩ batches).counts.length ≤ last := by
  suffices H : ∀ (bs : List (List String)) (s : recentSummarizer),
      s.last = last → s.counts.length ≤ last →
      (runRecentUpdates s bs).last = last
      ∧ (runRecentUpdates s bs).counts.length ≤ last by
    exact (H batches ⟨last, []⟩ rfl (by simp)).2
  intro bs
  induction bs with
  | nil =>
    intro s h1 h2
    exact ⟨h1, h2⟩
  | cons qs rest ih =>
    intro s h1 h2
    have hstep := recentUpdate_counts_le s qs (h1 ▸ h) (h1 ▸ h2)
    exact ih (s.Update qs).1 (hstep.1.trans h1) (h1 ▸ hstep.2)

/-- Witness for C6 at a concrete capacity and batch sequence. -/
theorem c6_window_never_exceeds_witness :
    (runRecentUpdates ⟨2, []⟩ [["b"], ["a"], ["c"]]).counts.length ≤ 2 :=
  c6_window_never_exceeds 2 (by decide) [["b"], ["a"], ["c"]]

/-! ## Counting lemmas for the summarizer mappings -/

/-- `addCount` adjusts exactly the looked-up key. -/
theorem lookup_addCount (m : List (String × Int)) (q : String) (c : Int)
    (s : String) :
    lookupCount (addCount m q c) s = lookupCount m s + (if q = s then c else 0) := by
  induction m with
  | nil =>
    by_cases h : q = s <;> simp [addCount, lookupCount, h]
  | cons p m ih =>
    obtain ⟨k, v⟩ := p
    show lookupCount (if k = q then (k, v + c) :: m else (k, v) :: addCount m q c) s = _
    by_cases hkq : k = q
    · rw [if_pos hkq]
      by_cases hks : k = s
      · have hqs : q = s := by rw [← hkq]; exact hks
        simp [lookupCount, hks, hqs]
      · have hqs : ¬ q = s := fun h => hks (hkq.trans h)
        simp [lookupCount, hks, hqs]
    · rw [if_neg hkq]
      by_cases hks : k = s
      · have hqs : ¬ q = s := fun h => hkq (hks.trans h.symm)
        simp [lookupCount, hks, hqs]
      · simp [lookupCount, hks, ih]

/-- Folding one Round into a mapping adds that Round's contribution. -/
theorem lookup_foldl_round (r : List queryCount) (m : List (String × Int))
    (s : String) :
    lookupCount (r.foldl (fun m qc => addCount m qc.q qc.c) m) s
      = lookupCount m s + roundSum r s := by
  induction r generalizing m with
  | nil => simp [roundSum]
  | cons qc r ih =>
    rw [List.foldl_cons, ih, lookup_addCount]
    by_cases h : qc.q = s <;> simp [roundSum, h] <;> ring

/-- The aggregate of exactly two retained Rounds. -/
theorem lookup_recentAggregate_two (r2 r3 : List queryCount) (s : String) :
    lookupCount (recentAggregate [r2, r3]) s = roundSum r2 s + roundSum r3 s := by
  unfold recentAggregate
  rw [List.foldl_cons, List.foldl_cons, List.foldl_nil,
    lookup_foldl_round, lookup_foldl_round]
  simp [lookupCount]

/-- A Round's contribution is invariant under reversal. -/
theorem roundSum_reverse (r : List queryCount) (s : String) :
    roundSum r.reverse s = roundSum r s := by
  unfold roundSum
  rw [List.map_reverse, List.sum_reverse]

/-- The run-length encoder preserves per-statement totals. -/
theorem roundSum_rleRev (l : List String) (acc : List queryCount) (s : String) :
    roundSum (rleRev acc l) s = roundSum acc s + countOcc l s := by
  induction l generalizing acc with
  | nil => simp [rleRev, countOcc]
  | cons q rest ih =>
    cases acc with
    | nil =>
      show roundSum (rleRev [⟨q, 1⟩] rest) s = _
      rw [ih]
      by_cases h : q = s <;> simp [roundSum, countOcc, h]
    | cons top accr =>
      by_cases htop : top.q = q
      · show roundSum (if top.q = q then rleRev (⟨top.q, top.c + 1⟩ :: accr) rest
            else rleRev (⟨q, 1⟩ :: top :: accr) rest) s = _
        rw [if_pos htop, ih]
        by_cases h : q = s <;>
          simp [roundSum, countOcc, htop, h] <;> ring
      · show roundSum (if top.q = q then rleRev (⟨top.q, top.c + 1⟩ :: accr) rest
            else rleRev (⟨q, 1⟩ :: top :: accr) rest) s = _
        rw [if_neg htop, ih]
        by_cases h : q = s <;>
          simp [roundSum, countOcc, h] <;> ring

/-- Run-length encoding a batch preserves each statement's occurrence count. -/
theorem roundSum_rle (l : List String) (s : String) :
    roundSum (rle l) s = countOcc l s := by
  unfold rle
  rw [roundSum_reverse, roundSum_rleRev]
  simp [roundSum]

/-- Occurrence counts are invariant under permutation. -/
theorem countOcc_perm {l l' : List String} (h : l.Perm l') (s : String) :
    countOcc l s = countOcc l' s := by
  induction h with
  | nil => rfl
  | cons x _ ih => simp [countOcc, ih]
  | swap x y l => simp [countOcc]; ring
  | trans _ _ ih1 ih2 => rw [ih1, ih2]

/-- Sorting a batch preserves each statement's occurrence count. -/
theorem countOcc_sortStrings (l : List String) (s : String) :
    countOcc (sortStrings l) s = countOcc l s :=
  countOcc_perm (List.perm_insertionSort strLe l) s

/-! ## Claim C2: Windowed(2) retains exactly rounds 2 and 3 -/

/-- Claim C2: for the Windowed summarizer with retention 2, after three
successive `Update` calls the aggregate that `Show` reports gives every
statement the sum of its counts in rounds 2 and 3 only; in particular a
count contributed solely by round 1 does not appear. -/
theorem c2_windowed_two_rounds (b1 b2 b3 : List String) (s : String) :
    lookupCount (recentAggregate ((runRecentUpdates ⟨2, []⟩ [b1, b2, b3]).counts)) s
      = countOcc b2 s + countOcc b3 s := by
  have hcounts : (runRecentUpdates ⟨2, []⟩ [b1, b2, b3]).counts
      = [rle (sortStrings b2), rle (sortStrings b3)] := by
    simp [runRecentUpdates, recentSummarizer.Update]
  rw [hcounts, lookup_recentAggregate_two, roundSum_rle, roundSum_rle,
    countOcc_sortStrings, countOcc_sortStrings]

/-! ## Claim C8: the row filter of `processList` -/

/-- The row loop keeps exactly the accepted statement texts, in order. -/
theorem rowLoop_eq_filterMap (rs : List ScanRow) :
    rowLoop rs = rs.filterMap rowInfoAccepted := by
  induction rs with
  | nil => rfl
  | cons r rest ih =>
    cases r with
    | bad => simpa [rowLoop, rowInfoAccepted] using ih
    | ok info =>
      cases info with
      | none => simpa [rowLoop, rowInfoAccepted] using ih
      | some q =>
        by_cases h : q ≠ "" ∧ q ≠ procListQuery <;>
          simp [rowLoop, rowInfoAccepted, h, ih]

/-- Claim C8: with a valid column layout, `processList` returns exactly the
statement texts of the rows whose text is non-null, non-empty and distinct
from the snapshot query itself — every such row contributes, every other row
is excluded. -/
theorem c8_row_filter (cols : Nat) (rs : List ScanRow) (h : cols = 8 ∨ cols = 9) :
    processList (.ok cols rs) = .queries (rs.filterMap rowInfoAccepted) := by
  show (if cols = 8 ∨ cols = 9 then PLResult.queries (rowLoop rs) else .fatal) = _
  rw [if_pos h, rowLoop_eq_filterMap]

/-- Witness for C8: null, empty, self-referential and undecodable rows are
dropped, the remaining row's text is kept. -/
theorem c8_row_filter_witness :
    processList (.ok 8 [ScanRow.ok none, .ok (some ""), .ok (some procListQuery),
        .bad, .ok (some "SELECT 1")]) = .queries ["SELECT 1"] :=
  (c8_row_filter 8
      [ScanRow.ok none, .ok (some ""), .ok (some procListQuery), .bad,
        .ok (some "SELECT 1")] (Or.inl rfl)).trans (by decide)

/-! ## Claim C7: transient snapshot errors are absorbed -/

/-- Without a dump sink, an iteration whose snapshot produced a normal
(possibly empty) round always completes with a `next` outcome. -/
theorem profileIter_next_of_dump_none (cfg : Config) (out : Sink) (st : ProfState)
    (snap : Snapshot) (qs : List String) (hq : processList snap = .queries qs)
    (hdump : cfg.dump = none) :
    ∃ st' r, profileIter cfg out st snap = .next st' r := by
  unfold profileIter
  rw [hq, hdump]
  show ∃ st' r,
    (if st.cnt + 1 ≥ cfg.delay then
      IterOutcome.next ⟨(st.summ.update (qs.map normalizeQuery)).1, 0, st.dumpW,
        showSummary out (st.outW + 1)
          (st.summ.update (qs.map normalizeQuery)).1.aggregate cfg.topN⟩ true
    else .next ⟨(st.summ.update (qs.map normalizeQuery)).1, st.cnt + 1, st.dumpW,
      st.outW⟩ false) = .next st' r
  by_cases hc : st.cnt + 1 ≥ cfg.delay
  · exact ⟨_, _, if_pos hc⟩
  · exact ⟨_, _, if_neg hc⟩

/-- Claim C7: a failed snapshot query is logged and yields an empty round
(`processList` returns zero statements instead of aborting); a row that
fails to decode is skipped while the remaining rows are still processed; and
in both cases the iteration of the sampling loop completes normally with a
`next` outcome. -/
theorem c7_transient_errors_nonfatal :
    processList .queryError = .queries []
    ∧ (∀ rest, rowLoop (.bad :: rest) = rowLoop rest)
    ∧ (∀ cfg out st rs, profileIter cfg out st (.ok 8 (.bad :: rs))
        = profileIter cfg out st (.ok 8 rs))
    ∧ (∀ cfg out st, cfg.dump = none →
        (∃ st' r, profileIter cfg out st .queryError = .next st' r)
        ∧ ∀ rs, ∃ st' r, profileIter cfg out st (.ok 8 rs) = .next st' r) := by
  refine ⟨rfl, fun rest => rfl, fun cfg out st rs => rfl, ?_⟩
  intro cfg out st hdump
  exact ⟨profileIter_next_of_dump_none cfg out st .queryError [] rfl hdump,
    fun rs => profileIter_next_of_dump_none cfg out st (.ok 8 rs) (rowLoop rs)
      rfl hdump⟩

/-- Witness for C7 at a concrete failed snapshot. -/
theorem c7_transient_errors_nonfatal_witness :
    ∃ st' r, profileIter ⟨none, 10, 0, 1⟩ (fun _ => true) (initState 0) .queryError
      = .next st' r :=
  (c7_transient_errors_nonfatal.2.2.2 ⟨none, 10, 0, 1⟩ (fun _ => true)
    (initState 0) rfl).1

/-! ## Claim C3: quoted string literals -/

/-- A quote-free text passes through the quoted-literal rule unchanged. -/
theorem replaceQuotedAux_none_free (qc : Char) :
    ∀ b : List Char, (∀ x ∈ b, x ≠ qc) → replaceQuotedAux qc none b = b := by
  intro b
  induction b with
  | nil => intro _; rfl
  | cons c rest ih =>
    intro h
    have hc : c ≠ qc := h c (List.mem_cons_self c rest)
    show (if c = qc then replaceQuotedAux qc (some []) rest
      else c :: replaceQuotedAux qc none rest) = c :: rest
    rw [if_neg hc, ih (fun x hx => h x (List.mem_cons_of_mem c hx))]

/-- A pending candidate literal whose remaining content is quote-free and
whose total content is non-empty closes into `S` at the next quote. -/
theorem replaceQuotedAux_pending (qc : Char) (b : List Char) :
    ∀ (c : List Char) (acc : List Char), (∀ x ∈ c, x ≠ qc) →
      (acc ≠ [] ∨ c ≠ []) →
      replaceQuotedAux qc (some acc) (c ++ (qc :: b))
        = 'S' :: replaceQuotedAux qc none b := by
  intro c
  induction c with
  | nil =>
    intro acc _ hne
    have hacc : acc ≠ [] := by
      rcases hne with h | h
      · exact h
      · exact absurd rfl h
    cases acc with
    | nil => exact absurd rfl hacc
    | cons a as => simp [replaceQuotedAux]
  | cons y c ih =>
    intro acc hfree _
    have hy : y ≠ qc := hfree y (List.mem_cons_self y c)
    show replaceQuotedAux qc (some acc) (y :: (c ++ (qc :: b))) = _
    simp only [replaceQuotedAux]
    rw [if_neg hy]
    exact ih (y :: acc) (fun x hx => hfree x (List.mem_cons_of_mem y hx))
      (Or.inl (by simp))

/-- The quoted-literal rule replaces a non-empty, quote-free literal with `S`
and leaves quote-free surroundings untouched. -/
theorem replaceQuoted_literal (qc : Char) (a c b : List Char)
    (ha : ∀ x ∈ a, x ≠ qc) (hc : ∀ x ∈ c, x ≠ qc) (hne : c ≠ [])
    (hb : ∀ x ∈ b, x ≠ qc) :
    replaceQuoted qc (a ++ (qc :: (c ++ (qc :: b)))) = a ++ ('S' :: b) := by
  unfold replaceQuoted
  induction a with
  | nil =>
    simp only [List.nil_append]
    show (if qc = qc then replaceQuotedAux qc (some []) (c ++ (qc :: b))
      else qc :: replaceQuotedAux qc none (c ++ (qc :: b))) = 'S' :: b
    rw [if_pos rfl,
      replaceQuotedAux_pending qc b c [] hc (Or.inr hne),
      replaceQuotedAux_none_free qc b hb]
  | cons x a ih =>
    have hx : x ≠ qc := ha x (List.mem_cons_self x a)
    show (if x = qc then replaceQuotedAux qc (some []) (a ++ (qc :: (c ++ (qc :: b))))
      else x :: replaceQuotedAux qc none (a ++ (qc :: (c ++ (qc :: b)))))
      = x :: (a ++ ('S' :: b))
    rw [if_neg hx, ih (fun z hz => ha z (List.mem_cons_of_mem x hz))]

/-- Claim C3 counterexample: the empty single-quoted literal is not replaced
by `S` — the normalizer leaves the statement unchanged, contradicting the
claim that every quoted literal, including the empty one, becomes `S`. -/
theorem c3_empty_literal_counterexample :
    normalizeQuery "SELECT * FROM t WHERE name = ''"
        = "SELECT * FROM t WHERE name = ''"
    ∧ normalizeQuery "SELECT * FROM t WHERE name = ''"
        ≠ "SELECT * FROM t WHERE name = S" := by
  constructor
  · decide
  · decide

/-- Claim C3 as amended: every single- or double-quoted string literal with
non-empty content and no embedded quote is replaced by the token `S` (the
empty literal is left unchanged, since `[^']+` requires at least one
character), and the spec's example normalizes as stated. -/
theorem c3_amended_nonempty_literals :
    (∀ (qc : Char) (a c b : List Char), (∀ x ∈ a, x ≠ qc) → (∀ x ∈ c, x ≠ qc) →
        c ≠ [] → (∀ x ∈ b, x ≠ qc) →
        replaceQuoted qc (a ++ (qc :: (c ++ (qc :: b)))) = a ++ ('S' :: b))
    ∧ normalizeQuery "SELECT * FROM t WHERE name = 'bob'"
        = "SELECT * FROM t WHERE name = S"
    ∧ normalizeQuery "SELECT * FROM t WHERE name = ''"
        = "SELECT * FROM t WHERE name = ''" :=
  ⟨fun qc a c b ha hc hne hb => replaceQuoted_literal qc a c b ha hc hne hb,
   by decide, by decide⟩

/-- Witness for the amended C3 at a concrete literal. -/
theorem c3_amended_nonempty_literals_witness :
    replaceQuoted '\'' (['x'] ++ ('\'' :: (['y'] ++ ('\'' :: ['z']))))
      = ['x'] ++ ('S' :: ['z']) :=
  c3_amended_nonempty_literals.1 '\'' ['x'] ['y'] ['z'] (by decide) (by decide)
    (by decide) (by decide)

/-! ## Claim C5: idempotence of the normalizer -/

/-- The space-collapsing scanner is idempotent (for either starting flag). -/
theorem collapseSpacesAux_idem : ∀ (l : List Char) (b : Bool),
    collapseSpacesAux b (collapseSpacesAux b l) = collapseSpacesAux b l := by
  intro l
  induction l with
  | nil => intro b; rfl
  | cons c rest ih =>
    intro b
    by_cases hc : c = ' '
    · subst hc
      cases b with
      | true => simpa [collapseSpacesAux] using ih true
      | false => simp [collapseSpacesAux, ih true]
    · simp [collapseSpacesAux, hc, ih false]

/-- Rule 1 is idempotent. -/
theorem collapseSpaces_idem (l : List Char) :
    collapseSpaces (collapseSpaces l) = collapseSpaces l :=
  collapseSpacesAux_idem l false

/-- Claim C5 counterexample: the statement `a \' b` contains no integer,
hexadecimal or quoted-string literal (rules 2, 3, 6 and 7 all leave it
unchanged), yet the normalizer is not idempotent on it — removing the
escaped quote creates a double space that only the second pass collapses. -/
theorem c5_idempotence_counterexample :
    replaceIntLits ("a \\' b".data) = "a \\' b".data
    ∧ replaceHexLits ("a \\' b".data) = "a \\' b".data
    ∧ replaceQuoted '\'' ("a \\' b".data) = "a \\' b".data
    ∧ replaceQuoted '"' ("a \\' b".data) = "a \\' b".data
    ∧ normalizeQuery (normalizeQuery "a \\' b") ≠ normalizeQuery "a \\' b"
    ∧ normalizeQuery "a \\' b" = "a  b"
    ∧ normalizeQuery (normalizeQuery "a \\' b") = "a b" :=
  ⟨by decide, by decide, by decide, by decide, by decide, by decide, by decide⟩

/-- Claim C5 as amended: the normalizer is idempotent on every statement
whose space-collapsed form is left unchanged by each of the later rules —
in particular on literal-free statements that also contain no escaped-quote
sequences and no foldable `N,`/`S,` runs.  Literal-freeness alone does not
suffice: escaped-quote removal can create a new double space, and list
folding can expose a new word-bounded integer literal. -/
theorem c5_amended_idempotence (s : String)
    (h2 : replaceIntLits (collapseSpaces s.data) = collapseSpaces s.data)
    (h3 : replaceHexLits (collapseSpaces s.data) = collapseSpaces s.data)
    (h4 : removeEscaped '\'' (collapseSpaces s.data) = collapseSpaces s.data)
    (h5 : removeEscaped '"' (collapseSpaces s.data) = collapseSpaces s.data)
    (h6 : replaceQuoted '\'' (collapseSpaces s.data) = collapseSpaces s.data)
    (h7 : replaceQuoted '"' (collapseSpaces s.data) = collapseSpaces s.data)
    (h8 : foldLists (collapseSpaces s.data) = collapseSpaces s.data) :
    normalizeQuery (normalizeQuery s) = normalizeQuery s := by
  have hpipe : normalizeQuery s = ⟨collapseSpaces s.data⟩ := by
    unfold normalizeQuery normalizePatterns
    simp only [List.foldl_cons, List.foldl_nil]
    rw [h2, h3, h4, h5, h6, h7, h8]
  rw [hpipe]
  unfold normalizeQuery normalizePatterns
  simp only [List.foldl_cons, List.foldl_nil]
  show (⟨foldLists (replaceQuoted '"' (replaceQuoted '\'' (removeEscaped '"'
      (removeEscaped '\'' (replaceHexLits (replaceIntLits (collapseSpaces
        (collapseSpaces s.data))))))))⟩ : String) = ⟨collapseSpaces s.data⟩
  rw [collapseSpaces_idem, h2, h3, h4, h5, h6, h7, h8]

/-- Witness for the amended C5 at a concrete statement with a double space. -/
theorem c5_amended_idempotence_witness :
    normalizeQuery (normalizeQuery "a  b") = normalizeQuery "a  b" :=
  c5_amended_idempotence "a  b" (by decide) (by decide) (by decide) (by decide)
    (by decide) (by decide) (by decide)

/-! ## Claim C1: which sink failures stop the loop -/

/-- A failed write during the dump phase exits the `profile` loop. -/
theorem profileIter_exit_of_dump_fail (cfg : Config) (out : Sink) (st : ProfState)
    (snap : Snapshot) (qs : List String) (d : Sink)
    (hq : processList snap = .queries qs) (hcd : cfg.dump = some d)
    (hdp : dumpPhase d st.dumpW qs = none) :
    profileIter cfg out st snap = .exit := by
  unfold profileIter
  rw [hq, hcd]
  show (match dumpPhase d st.dumpW qs with
    | none => IterOutcome.exit
    | some dw =>
      if st.cnt + 1 ≥ cfg.delay then
        IterOutcome.next ⟨(st.summ.update (qs.map normalizeQuery)).1, 0, dw,
          showSummary out (st.outW + 1)
            (st.summ.update (qs.map normalizeQuery)).1.aggregate cfg.topN⟩ true
      else .next ⟨(st.summ.update (qs.map normalizeQuery)).1, st.cnt + 1, dw,
        st.outW⟩ false) = .exit
  rw [hdp]

/-- A dump phase that finishes without a write error lets the iteration
continue with a `next` outcome. -/
theorem profileIter_next_of_dump_some (cfg : Config) (out : Sink) (st : ProfState)
    (snap : Snapshot) (qs : List String) (d : Sink) (w : Nat)
    (hq : processList snap = .queries qs) (hcd : cfg.dump = some d)
    (hdp : dumpPhase d st.dumpW qs = some w) :
    ∃ st' r, profileIter cfg out st snap = .next st' r := by
  unfold profileIter
  rw [hq, hcd]
  show ∃ st' r, (match dumpPhase d st.dumpW qs with
    | none => IterOutcome.exit
    | some dw =>
      if st.cnt + 1 ≥ cfg.delay then
        IterOutcome.next ⟨(st.summ.update (qs.map normalizeQuery)).1, 0, dw,
          showSummary out (st.outW + 1)
            (st.summ.update (qs.map normalizeQuery)).1.aggregate cfg.topN⟩ true
      else .next ⟨(st.summ.update (qs.map normalizeQuery)).1, st.cnt + 1, dw,
        st.outW⟩ false) = .next st' r
  rw [hdp]
  show ∃ st' r, (if st.cnt + 1 ≥ cfg.delay then
      IterOutcome.next ⟨(st.summ.update (qs.map normalizeQuery)).1, 0, w,
        showSummary out (st.outW + 1)
          (st.summ.update (qs.map normalizeQuery)).1.aggregate cfg.topN⟩ true
    else .next ⟨(st.summ.update (qs.map normalizeQuery)).1, st.cnt + 1, w,
      st.outW⟩ false) = .next st' r
  by_cases hc : st.cnt + 1 ≥ cfg.delay
  · exact ⟨_, _, if_pos hc⟩
  · exact ⟨_, _, if_neg hc⟩

/-- Claim C1 counterexample: with a report sink on which every write fails,
an iteration that prints a report still continues the loop (`next`, not
`exit`): a failed write to the report sink is not fatal, contradicting the
claim that a failed write to either sink terminates the loop.  The final
write counter 2 records that the header write and one (failed) report-line
write were attempted. -/
theorem c1_report_sink_failure_counterexample :
    profileIter ⟨none, 10, 0, 1⟩ (fun _ => false) (initState 0)
        (.ok 8 [.ok (some "SELECT 1")])
      = .next ⟨.cum ⟨[("SELECT N", 1)]⟩, 0, 0, 2⟩ true
    ∧ (fun _ => false : Sink) 1 = false :=
  ⟨by decide, rfl⟩

/-- Claim C1 as amended: a failed write to the raw-dump sink is fatal to the
loop, and it is the only sink failure that is — the iteration exits exactly
when a configured dump sink fails during the dump phase, and with a
successful (or absent) dump phase the iteration always continues with a
`next` outcome regardless of report-sink write failures, which only truncate
the current report. -/
theorem c1_amended_dump_fatal_report_not (cfg : Config) (out : Sink)
    (st : ProfState) (snap : Snapshot) (qs : List String)
    (hq : processList snap = .queries qs) :
    (profileIter cfg out st snap = .exit ↔
      ∃ d, cfg.dump = some d ∧ dumpPhase d st.dumpW qs = none)
    ∧ (∀ d w, cfg.dump = some d → dumpPhase d st.dumpW qs = some w →
        ∃ st' r, profileIter cfg out st snap = .next st' r)
    ∧ (cfg.dump = none → ∃ st' r, profileIter cfg out st snap = .next st' r) := by
  refine ⟨?_, ?_, ?_⟩
  · constructor
    · intro hexit
      rcases hcd : cfg.dump with _ | d
      · obtain ⟨st', r, hnext⟩ :=
          profileIter_next_of_dump_none cfg out st snap qs hq hcd
        rw [hnext] at hexit
        exact absurd hexit (by simp)
      · refine ⟨d, rfl, ?_⟩
        cases hdp : dumpPhase d st.dumpW qs with
        | none => rfl
        | some w =>
          obtain ⟨st', r, hnext⟩ :=
            profileIter_next_of_dump_some cfg out st snap qs d w hq hcd hdp
          rw [hnext] at hexit
          exact absurd hexit (by simp)
    · rintro ⟨d, hcd, hdp⟩
      exact profileIter_exit_of_dump_fail cfg out st snap qs d hq hcd hdp
  · intro d w hcd hdp
    exact profileIter_next_of_dump_some cfg out st snap qs d w hq hcd hdp
  · intro hcd
    exact profileIter_next_of_dump_none cfg out st snap qs hq hcd

/-- Witness for the amended C1: a concrete iteration whose dump sink rejects
its first write exits the loop. -/
theorem c1_amended_dump_fatal_report_not_witness :
    profileIter ⟨some (fun _ => false), 10, 0, 1⟩ (fun _ => true) (initState 0)
        (.ok 8 [.ok (some "SELECT 1")]) = .exit :=
  ((c1_amended_dump_fatal_report_not ⟨some (fun _ => false), 10, 0, 1⟩
      (fun _ => true) (initState 0) (.ok 8 [.ok (some "SELECT 1")])
      ["SELECT 1"] (by decide)).1).mpr ⟨fun _ => false, rfl, rfl⟩

/-! ## Claim C9: reporting cadence `delay = 2` under Cumulative mode -/

/-- Clean rows pass through the row filter untouched. -/
theorem rowLoop_clean (qs : List String)
    (h : ∀ q ∈ qs, q ≠ "" ∧ q ≠ procListQuery) :
    rowLoop (qs.map fun q => .ok (some q)) = qs := by
  induction qs with
  | nil => rfl
  | cons q rest ih =>
    have hq := h q (List.mem_cons_self q rest)
    show (if q ≠ "" ∧ q ≠ procListQuery
        then q :: rowLoop (rest.map fun q => .ok (some q))
        else rowLoop (rest.map fun q => .ok (some q))) = q :: rest
    rw [if_pos hq, ih (fun x hx => h x (List.mem_cons_of_mem q hx))]

/-- A well-formed snapshot of clean rows yields exactly its statements. -/
theorem processList_mkSnap (qs : List String)
    (h : ∀ q ∈ qs, q ≠ "" ∧ q ≠ procListQuery) :
    processList (mkSnap qs) = .queries qs := by
  show (if (8 : Nat) = 8 ∨ (8 : Nat) = 9
      then PLResult.queries (rowLoop (qs.map fun q => .ok (some q)))
      else .fatal) = _
  rw [if_pos (Or.inl rfl), rowLoop_clean qs h]

/-- Occurrence counts distribute over concatenation. -/
theorem countOcc_append (l1 l2 : List String) (s : String) :
    countOcc (l1 ++ l2) s = countOcc l1 s + countOcc l2 s := by
  induction l1 with
  | nil => simp [countOcc]
  | cons q rest ih =>
    show (if q = s then (1 : Int) else 0) + countOcc (rest ++ l2) s
      = ((if q = s then (1 : Int) else 0) + countOcc rest s) + countOcc l2 s
    rw [ih]
    ring

/-- The cumulative `Update` fold adds each statement's occurrence count. -/
theorem lookup_foldl_bump (qs : List String) (m : List (String × Int))
    (s : String) :
    lookupCount (qs.foldl (fun m q => addCount m q 1) m) s
      = lookupCount m s + countOcc qs s := by
  induction qs generalizing m with
  | nil => simp [countOcc]
  | cons q rest ih =>
    rw [List.foldl_cons, ih, lookup_addCount]
    by_cases h : q = s <;> simp [countOcc, h] <;> ring

/-- The value of one iteration without a dump sink, as a single conditional. -/
theorem profileIter_eq_of_none (cfg : Config) (out : Sink) (st : ProfState)
    (snap : Snapshot) (qs : List String)
    (hq : processList snap = .queries qs) (hdump : cfg.dump = none) :
    profileIter cfg out st snap =
      if st.cnt + 1 ≥ cfg.delay then
        .next ⟨(st.summ.update (qs.map normalizeQuery)).1, 0, st.dumpW,
          showSummary out (st.outW + 1)
            (st.summ.update (qs.map normalizeQuery)).1.aggregate cfg.topN⟩ true
      else .next ⟨(st.summ.update (qs.map normalizeQuery)).1, st.cnt + 1,
        st.dumpW, st.outW⟩ false := by
  unfold profileIter
  rw [hq, hdump]

/-- Claim C9: with cadence `delay = 2`, no dump sink and the Cumulative
summarizer, a 3-round snapshot sequence emits exactly one report — after
round 2, not after round 1 and not after round 3 — and at that report the
summarizer's mapping holds the merged per-statement counts of rounds 1
and 2. -/
theorem c9_cadence_two (q1 q2 q3 : List String)
    (h : ∀ q ∈ q1 ++ q2 ++ q3, q ≠ "" ∧ q ≠ procListQuery) :
    ∃ st1 st2 st3,
      profileIter ⟨none, 10, 0, 2⟩ (fun _ => true) (initState 0) (mkSnap q1)
        = .next st1 false
      ∧ profileIter ⟨none, 10, 0, 2⟩ (fun _ => true) st1 (mkSnap q2)
        = .next st2 true
      ∧ (∀ s, lookupCount st2.summ.aggregate s
          = countOcc ((q1 ++ q2).map normalizeQuery) s)
      ∧ profileIter ⟨none, 10, 0, 2⟩ (fun _ => true) st2 (mkSnap q3)
        = .next st3 false := by
  have h1 : processList (mkSnap q1) = .queries q1 :=
    processList_mkSnap q1 (fun q hq =>
      h q (List.mem_append_left q3 (List.mem_append_left q2 hq)))
  have h2 : processList (mkSnap q2) = .queries q2 :=
    processList_mkSnap q2 (fun q hq =>
      h q (List.mem_append_left q3 (List.mem_append_right q1 hq)))
  have h3 : processList (mkSnap q3) = .queries q3 :=
    processList_mkSnap q3 (fun q hq => h q (List.mem_append_right (q1 ++ q2) hq))
  have e1 : profileIter ⟨none, 10, 0, 2⟩ (fun _ => true) (initState 0) (mkSnap q1)
      = .next ⟨.cum ⟨(q1.map normalizeQuery).foldl (fun m q => addCount m q 1) []⟩,
          1, 0, 0⟩ false := by
    rw [profileIter_eq_of_none _ _ _ _ q1 h1 rfl]
    rfl
  have e2 : profileIter ⟨none, 10, 0, 2⟩ (fun _ => true)
      ⟨.cum ⟨(q1.map normalizeQuery).foldl (fun m q => addCount m q 1) []⟩, 1, 0, 0⟩
      (mkSnap q2)
      = .next ⟨.cum ⟨(q2.map normalizeQuery).foldl (fun m q => addCount m q 1)
            ((q1.map normalizeQuery).foldl (fun m q => addCount m q 1) [])⟩, 0, 0,
          showSummary (fun _ => true) 1
            ((q2.map normalizeQuery).foldl (fun m q => addCount m q 1)
              ((q1.map normalizeQuery).foldl (fun m q => addCount m q 1) [])) 10⟩
        true := by
    rw [profileIter_eq_of_none _ _ _ _ q2 h2 rfl]
    rfl
  have e5 : ∀ s, lookupCount
      ((q2.map normalizeQuery).foldl (fun m q => addCount m q 1)
        ((q1.map normalizeQuery).foldl (fun m q => addCount m q 1) [])) s
      = countOcc ((q1 ++ q2).map normalizeQuery) s := by
    intro s
    rw [lookup_foldl_bump, lookup_foldl_bump, List.map_append, countOcc_append]
    simp [lookupCount]
  have e4 : profileIter ⟨none, 10, 0, 2⟩ (fun _ => true)
      ⟨.cum ⟨(q2.map normalizeQuery).foldl (fun m q => addCount m q 1)
          ((q1.map normalizeQuery).foldl (fun m q => addCount m q 1) [])⟩, 0, 0,
        showSummary (fun _ => true) 1
          ((q2.map normalizeQuery).foldl (fun m q => addCount m q 1)
            ((q1.map normalizeQuery).foldl (fun m q => addCount m q 1) [])) 10⟩
      (mkSnap q3)
      = .next ⟨.cum ⟨(q3.map normalizeQuery).foldl (fun m q => addCount m q 1)
            ((q2.map normalizeQuery).foldl (fun m q => addCount m q 1)
              ((q1.map normalizeQuery).foldl (fun m q => addCount m q 1) []))⟩, 1, 0,
          showSummary (fun _ => true) 1
            ((q2.map normalizeQuery).foldl (fun m q => addCount m q 1)
              ((q1.map normalizeQuery).foldl (fun m q => addCount m q 1) [])) 10⟩
        false := by
    rw [profileIter_eq_of_none _ _ _ _ q3 h3 rfl]
    rfl
  exact ⟨_, _, _, e1, e2, e5, e4⟩

/-- Witness for C9 at concrete rounds. -/
theorem c9_cadence_two_witness :
    ∃ st1 st2 st3,
      profileIter ⟨none, 10, 0, 2⟩ (fun _ => true) (initState 0)
          (mkSnap ["SELECT 1", "SELECT 2"]) = .next st1 false
      ∧ profileIter ⟨none, 10, 0, 2⟩ (fun _ => true) st1 (mkSnap ["SELECT 1"])
        = .next st2 true
      ∧ (∀ s, lookupCount st2.summ.aggregate s
          = countOcc ((["SELECT 1", "SELECT 2"] ++ ["SELECT 1"]).map
              normalizeQuery) s)
      ∧ profileIter ⟨none, 10, 0, 2⟩ (fun _ => true) st2 (mkSnap [])
        = .next st3 false :=
  c9_cadence_two ["SELECT 1", "SELECT 2"] ["SELECT 1"] [] (by decide)
